import Mathlib

/-!
Verification of the EDA dashboard pipeline (src/eda.py).

The script is a linear pandas pipeline: parse a CSV, coerce date-named
columns, classify columns by dtype, bind price/quantity/category/date
columns, compute KPI metrics on the raw table, then clean
(drop_duplicates, missing-value policy, invalid-row filter) and render
charts (top-15 category counts, daily OHLC, correlation).

We embed the table shallowly: a table is a list of rows over typed cells,
with per-column dtypes (int64/float64 are collapsed into `num`, object
into `obj`, datetime64 into `datetime`).  Missing values (NaN / NaT /
None) are `Option.none` cells.  Numeric values are rationals, datetimes
are natural-number timestamps (seconds), and the calendar-date component
is the timestamp divided by 86400.
-/

namespace EDA

/-- Column dtype bucket, as produced by `select_dtypes` in the script. -/
inductive Dtype where
  | num      -- int64 / float64
  | obj      -- object (strings from CSV parsing)
  | datetime -- datetime64 (after the to_datetime coercion)
deriving DecidableEq, Repr

/-- A non-missing cell value. -/
inductive Value where
  | num (q : ℚ)
  | str (s : String)
  | date (n : ℕ)
deriving DecidableEq, Repr

/-- A cell: `none` models NaN / NaT / missing. -/
abbrev Cell := Option Value

/-- A row of a table, cells listed in column order. -/
abbrev Row := List Cell

/-- A pandas DataFrame: column names, column dtypes, and rows. -/
structure Table where
  names  : List String
  dtypes : List Dtype
  rows   : List Row
deriving DecidableEq, Repr

/-- Well-formedness: dtypes align with names and every row is full width. -/
def Table.WF (t : Table) : Prop :=
  t.dtypes.length = t.names.length ∧ ∀ r ∈ t.rows, r.length = t.names.length

instance (t : Table) : Decidable t.WF := by
  unfold Table.WF; infer_instance

/-- Cell at row `i`, column `j` (missing when out of range). -/
def Table.cell (t : Table) (i j : ℕ) : Cell :=
  (((t.rows.get? i).getD []).get? j).join

/-- The cells of column `j`, top to bottom (as `df[col]`). -/
def colCells (t : Table) (j : ℕ) : List Cell :=
  t.rows.map (fun r => ((r.get? j).join))

/-! ### drop_duplicates

`df.drop_duplicates()` keeps the first occurrence of each row and removes
every row equal to an earlier one (NaN cells compare equal to each other
here, as pandas hashing treats them). -/

/-- `drop_duplicates(keep=first)`: keep each element's first occurrence,
remove every later copy. -/
def dropDuplicates {α : Type} [DecidableEq α] : List α → List α
  | [] => []
  | a :: l => a :: (dropDuplicates l).filter (fun b => b ≠ a)

variable {α : Type} [DecidableEq α]

theorem mem_dropDuplicates {a : α} : ∀ {l : List α}, a ∈ dropDuplicates l ↔ a ∈ l
  | [] => Iff.rfl
  | b :: l => by
    have ih : a ∈ dropDuplicates l ↔ a ∈ l := mem_dropDuplicates
    simp only [dropDuplicates, List.mem_cons, List.mem_filter, ne_eq,
      decide_eq_true_eq, ih]
    by_cases hab : a = b
    · simp [hab]
    · simp [hab]

theorem nodup_dropDuplicates : ∀ (l : List α), (dropDuplicates l).Nodup
  | [] => List.nodup_nil
  | a :: l => by
    rw [dropDuplicates]
    refine List.nodup_cons.mpr ⟨?_, (nodup_dropDuplicates l).filter _⟩
    simp [List.mem_filter]

theorem dropDuplicates_of_nodup : ∀ {l : List α}, l.Nodup → dropDuplicates l = l
  | [], _ => rfl
  | a :: l, h => by
    rw [dropDuplicates]
    obtain ⟨ha, hl⟩ := List.nodup_cons.mp h
    rw [dropDuplicates_of_nodup hl]
    congr 1
    refine List.filter_eq_self.mpr (fun b hb => ?_)
    simp only [ne_eq, decide_eq_true_eq]
    rintro rfl
    exact ha hb

theorem dropDuplicates_idem (l : List α) :
    dropDuplicates (dropDuplicates l) = dropDuplicates l :=
  dropDuplicates_of_nodup (nodup_dropDuplicates l)

/-- Keep-first deduplication, snoc characterisation: a row appended at
the end survives deduplication exactly when it does not duplicate an
earlier row.  Together with `dropDuplicates [] = []` this characterises
the keep-first behaviour completely. -/
theorem dropDuplicates_append_singleton (a : α) :
    ∀ (l : List α), dropDuplicates (l ++ [a]) =
      if a ∈ l then dropDuplicates l else dropDuplicates l ++ [a]
  | [] => by simp [dropDuplicates]
  | x :: l => by
    rw [List.cons_append, dropDuplicates, dropDuplicates,
      dropDuplicates_append_singleton a l]
    by_cases hal : a ∈ l
    · rw [if_pos hal, if_pos (List.mem_cons_of_mem x hal)]
    · rw [if_neg hal, List.filter_append]
      by_cases hax : a = x
      · subst hax
        simp [List.filter]
      · rw [if_neg (by simp [hax, hal])]
        simp [List.filter, hax]

/-! ### Orders on values

pandas `Series.mode` sorts its result ascending (`np.sort` inside
`algorithms.mode`), so `mode()[0]` is the least most-frequent value.
Strings compare lexicographically by code point; we spell that order out
on `List Char` because the core `String` order does not reduce in the
kernel.  Cross-dtype comparisons never arise inside a single typed
column, so the order between different constructors is fixed arbitrarily
(by constructor rank) just to keep the relation total. -/

/-- Strict lexicographic code-point order on character lists. -/
def strLt : List Char → List Char → Bool
  | [], [] => false
  | [], _ :: _ => true
  | _ :: _, [] => false
  | a :: as, b :: bs =>
    if a.toNat < b.toNat then true
    else if b.toNat < a.toNat then false
    else strLt as bs

/-- Constructor rank, used only to make `valueLe` total across dtypes. -/
def Value.rank : Value → ℕ
  | .num _ => 0
  | .date _ => 1
  | .str _ => 2

/-- The ascending order used by pandas mode's sort. -/
def valueLe (a b : Value) : Bool :=
  match a, b with
  | .num x, .num y => x ≤ y
  | .str x, .str y => !(strLt y.data x.data)
  | .date x, .date y => x ≤ y
  | _, _ => a.rank ≤ b.rank

/-! ### Column statistics -/

/-- The numeric content of a cell (`none` for NaN or non-numeric). -/
def Cell.asNum : Cell → Option ℚ
  | some (.num q) => some q
  | _ => none

/-- Non-missing numeric values of a column, as pandas skipna aggregation. -/
def numCells (c : List Cell) : List ℚ := c.filterMap Cell.asNum

/-- Non-missing values of a column (pandas `dropna` view of a Series). -/
def nonNull (c : List Cell) : List Value := c.filterMap id

/-- `Series.median()`: sort the non-missing values ascending; take the
middle element, or the average of the two middle elements; NaN (`none`)
on an empty series. -/
def median (xs : List ℚ) : Option ℚ :=
  let s := List.insertionSort (fun a b : ℚ => a ≤ b) xs
  let n := s.length
  if n = 0 then none
  else if n % 2 = 1 then s.get? (n / 2)
  else do
    let a ← s.get? (n / 2 - 1)
    let b ← s.get? (n / 2)
    pure ((a + b) / 2)

/-- The highest multiplicity among the distinct non-missing values. -/
def maxCount (vs : List Value) : ℕ :=
  (dropDuplicates vs).foldl (fun m v => max m (vs.count v)) 0

/-- The distinct values attaining the highest multiplicity. -/
def modeCandidates (vs : List Value) : List Value :=
  (dropDuplicates vs).filter (fun v => vs.count v = maxCount vs)

/-- `Series.mode()[0]`: the most-frequent values, sorted ascending, first
element; `none` when the series has no non-missing value (in the script
that `[0]` lookup raises `KeyError: 0`). -/
def modeCol (c : List Cell) : Option Value :=
  (List.insertionSort (fun a b => valueLe a b = true)
    (modeCandidates (nonNull c))).head?

/-! ### fillna with inplace=True on a column

The script fills each column with `df[col].fillna(value, inplace=True)`.
`df[col]` is a Series viewing the frame's block; the in-place fill writes
through to the frame only when the block dtype can hold the fill value.
Otherwise (e.g. the string "Unknown" into a datetime64 column) pandas
upcasts to a fresh object array owned by the temporary Series and the
frame is silently left unchanged.  `canHold`/`effectiveFill` model that
write-back rule. -/

/-- Whether a column block of the given dtype can hold a value in place. -/
def canHold : Dtype → Value → Bool
  | .num, .num _ => true
  | .obj, _ => true
  | .datetime, .date _ => true
  | _, _ => false

/-- The fill value that actually lands in the frame, if any. -/
def effectiveFill (dt : Dtype) (v : Value) : Option Value :=
  if canHold dt v then some v else none

/-- `fillna` at cell level: keep a present value, else use the fill. -/
def cellOr (c : Cell) (f : Option Value) : Cell :=
  match c with
  | some v => some v
  | none => f

/-- Apply per-column fill values across one row. -/
def fillRow (fills : List (Option Value)) (r : Row) : Row :=
  List.zipWith cellOr r fills

/-- Error raised by `mode()[0]` on an empty mode result. -/
def keyErrorZero : String := "KeyError: 0"

/-- Fill value for one column under the mean/median/mode branch: median
for int64/float64 columns (NaN, i.e. no fill, when the column is all
missing), else `mode()[0]` (raising on an all-missing column). -/
def medianModeFill1 (t : Table) (j : ℕ) (dt : Dtype) : Except String (Option Value) :=
  if dt = .num then
    .ok ((median (numCells (colCells t j))).map Value.num)
  else
    match modeCol (colCells t j) with
    | none => .error keyErrorZero
    | some v => .ok (effectiveFill dt v)

/-- The per-column loop of the mean/median/mode branch (the loop stops at
the first raising column). -/
def collectFills (t : Table) : List (ℕ × Dtype) → Except String (List (Option Value))
  | [] => .ok []
  | (j, dt) :: rest =>
    match medianModeFill1 t j dt with
    | .error e => .error e
    | .ok f =>
      match collectFills t rest with
      | .error e => .error e
      | .ok fs => .ok (f :: fs)

/-- The "Fill with mean/median/mode" cleaning branch. -/
def medianModeFill (t : Table) : Except String Table :=
  match collectFills t t.dtypes.enum with
  | .error e => .error e
  | .ok fs => .ok { t with rows := t.rows.map (fillRow fs) }

/-- Fill value of the "Fill with constant" branch: 0 for int64/float64
columns, the text "Unknown" otherwise. -/
def constFillValue : Dtype → Value
  | .num => .num 0
  | _ => .str "Unknown"

/-- The "Fill with constant (e.g., 0)" cleaning branch. -/
def constantFill (t : Table) : Table :=
  { t with rows :=
      t.rows.map (fillRow (t.dtypes.map (fun dt => effectiveFill dt (constFillValue dt)))) }

/-- The "Drop rows" cleaning branch (`df.dropna()`). -/
def dropNaRows (t : Table) : Table :=
  { t with rows := t.rows.filter (fun r => r.all (fun c => c.isSome)) }

/-- The missing-value radio options. -/
inductive MissingPolicy where
  | dropRows
  | fillMedianMode
  | fillConstant
deriving DecidableEq, Repr

/-- Dispatch on the selected missing-value policy. -/
def applyPolicy : MissingPolicy → Table → Except String Table
  | .dropRows, t => .ok (dropNaRows t)
  | .fillMedianMode, t => medianModeFill t
  | .fillConstant, t => .ok (constantFill t)

/-! ### Invalid-row filter -/

/-- `df[price] >= 0` at one cell; NaN comparisons are False in pandas. -/
def cellGe0 : Cell → Bool
  | some (.num x) => decide (0 ≤ x)
  | _ => false

/-- `df[qty] > 0` at one cell; NaN comparisons are False. -/
def cellGt0 : Cell → Bool
  | some (.num x) => decide (0 < x)
  | _ => false

/-- `df[price] < 0` at one cell; NaN comparisons are False. -/
def cellLt0 : Cell → Bool
  | some (.num x) => decide (x < 0)
  | _ => false

/-- `df[qty] <= 0` at one cell; NaN comparisons are False. -/
def cellLe0 : Cell → Bool
  | some (.num x) => decide (x ≤ 0)
  | _ => false

/-- The keep condition of `df[(df[price_col] >= 0) & (df[qty_col] > 0)]`. -/
def keepRow (p q : ℕ) (r : Row) : Bool :=
  cellGe0 ((r.get? p).join) && cellGt0 ((r.get? q).join)

/-- The invalid-row filter with both bindings resolved to column indices. -/
def invalidFilter (p q : ℕ) (t : Table) : Table :=
  { t with rows := t.rows.filter (keepRow p q) }

/-- Following the claim's words: a row is invalid iff bound price < 0 or
bound quantity ≤ 0 (used to compare with what the code removes). -/
def claimInvalidRow (p q : ℕ) (r : Row) : Bool :=
  cellLt0 ((r.get? p).join) || cellLe0 ((r.get? q).join)

/-- Following the claim's words: remove exactly the invalid rows. -/
def claimInvalidFilter (p q : ℕ) (t : Table) : Table :=
  { t with rows := t.rows.filter (fun r => !(claimInvalidRow p q r)) }

/-! ### The cleaning stage -/

/-- `df.drop_duplicates()` at table level. -/
def Table.dedupe (t : Table) : Table :=
  { t with rows := dropDuplicates t.rows }

/-- Error raised by `df[None]` when a selectbox had no options. -/
def keyErrorNone : String := "KeyError: None"

/-- Step 3 of cleaning: the filter needs both bindings; with an unset
binding the column lookup `df[None]` raises. -/
def applyInvalidFilter (p q : Option ℕ) (t : Table) : Except String Table :=
  match p, q with
  | some pi, some qi => .ok (invalidFilter pi qi t)
  | _, _ => .error keyErrorNone

/-- The whole cleaning tab: drop_duplicates, the missing-value policy,
then the invalid-row filter. -/
def cleaningStage (pol : MissingPolicy) (p q : Option ℕ) (t : Table) :
    Except String Table :=
  match applyPolicy pol t.dedupe with
  | .error e => .error e
  | .ok t2 => applyInvalidFilter p q t2

/-! ### KPI metrics (computed on the raw parsed table) -/

/-- The three metric cards. -/
structure KPI where
  totalOrders : ℕ
  totalRevenue : ℚ
  uniqueCustomers : Option ℕ
deriving DecidableEq, Repr

/-- `(df[price_col] * df[qty_col]).sum()`: products with a NaN factor
are NaN and are skipped by the sum. -/
def revenue (p q : ℕ) (t : Table) : ℚ :=
  (t.rows.filterMap (fun r => do
    let x ← Cell.asNum ((r.get? p).join)
    let y ← Cell.asNum ((r.get? q).join)
    pure (x * y))).sum

/-- `Series.nunique()`: distinct non-missing values. -/
def nunique (c : List Cell) : ℕ := (dropDuplicates (nonNull c)).length

/-- The KPI block, evaluated on the table as parsed (before cleaning). -/
def kpiOf (t : Table) (p q : ℕ) : KPI :=
  { totalOrders := t.rows.length
    totalRevenue := revenue p q t
    uniqueCustomers :=
      match t.names.findIdx? (fun n => n = "customer_id") with
      | some j => some (nunique (colCells t j))
      | none => none }

/-! ### The script body -/

/-- What one render produces, per stage. -/
structure AppOutput where
  errorBanners : List String
  kpis : Option KPI
  cleaned : Option (Except String Table)
  crashed : Option String
deriving Repr

/-- The script under an upload: `read_csv` inside try/except (an error
banner plus `st.stop()` on failure, so nothing further runs), then the
KPI metrics on the raw parsed table, then the cleaning tab.  With no
numeric columns the price/qty selectboxes yield None and the KPI lookup
`df[None]` raises, crashing the render. -/
def runApp (parsed : Except String Table) (pol : MissingPolicy)
    (p q : Option ℕ) : AppOutput :=
  match parsed with
  | .error e =>
    { errorBanners := ["Error reading file: " ++ e]
      kpis := none
      cleaned := none
      crashed := none }
  | .ok df =>
    match p, q with
    | some pi, some qi =>
      { errorBanners := []
        kpis := some (kpiOf df pi qi)
        cleaned := some (cleaningStage pol p q df)
        crashed := none }
    | _, _ =>
      { errorBanners := []
        kpis := none
        cleaned := none
        crashed := some keyErrorNone }

/-! ### Daily OHLC aggregation -/

/-- `df[date_col].dt.date` of one cell: the calendar-date component
(`none` for NaT, whose group is dropped by groupby). -/
def dateKey (c : Cell) : Option ℕ :=
  match c with
  | some (.date n) => some (n / 86400)
  | _ => none

/-- Project each row to (calendar date of the bound date cell, bound
price cell) for the groupby. -/
def ohlcRows (t : Table) (dj pj : ℕ) : List (Option ℕ × Option ℚ) :=
  t.rows.map (fun r => (dateKey ((r.get? dj).join), Cell.asNum ((r.get? pj).join)))

/-- One row of the aggregated daily frame. -/
structure OhlcEntry where
  day : ℕ
  openPrice : Option ℚ
  highPrice : Option ℚ
  lowPrice : Option ℚ
  closePrice : Option ℚ
deriving DecidableEq, Repr

/-- The non-missing prices of one date group, in original row order
(pandas 'first'/'last' pick the first/last non-null; max/min skip NaN). -/
def groupPrices (rows : List (Option ℕ × Option ℚ)) (k : ℕ) : List ℚ :=
  rows.filterMap (fun x => if x.1 = some k then x.2 else none)

/-- The group keys: distinct non-NaT dates, sorted ascending (groupby
sorts keys by default). -/
def dayKeys (rows : List (Option ℕ × Option ℚ)) : List ℕ :=
  List.insertionSort (fun a b : ℕ => a ≤ b) (dropDuplicates (rows.filterMap Prod.fst))

/-- open/high/low/close of one group (NaN row for an all-NaN group). -/
def aggGroup (k : ℕ) (g : List ℚ) : OhlcEntry :=
  match g with
  | [] => ⟨k, none, none, none, none⟩
  | p :: ps => ⟨k, some p, some (ps.foldl max p), some (ps.foldl min p), some (ps.getLastD p)⟩

/-- The `groupby(df[date_col].dt.date).agg(open, high, low, close)` frame. -/
def ohlc (rows : List (Option ℕ × Option ℚ)) : List OhlcEntry :=
  (dayKeys rows).map (fun k => aggGroup k (groupPrices rows k))

/-- The daily OHLC frame of a table under date/price bindings. -/
def ohlcOfTable (t : Table) (dj pj : ℕ) : List OhlcEntry :=
  ohlc (ohlcRows t dj pj)

/-! ### value_counts().head(15) -/

/-- Order used to sort the value_counts result: count descending, and for
equal counts first-appearance rank ascending (the stable tie behaviour of
the sort on counts collected in first-seen order). -/
def vcLe (vs : List Value) (a b : ℕ × Value) : Prop :=
  vs.count b.2 < vs.count a.2 ∨ (vs.count a.2 = vs.count b.2 ∧ a.1 ≤ b.1)

instance (vs : List Value) (a b : ℕ × Value) : Decidable (vcLe vs a b) := by
  unfold vcLe; infer_instance

/-- `Series.value_counts()`: distinct non-missing values tagged with
their first-appearance rank, sorted by count descending. -/
def valueCounts (c : List Cell) : List (ℕ × Value) :=
  List.insertionSort (vcLe (nonNull c)) (dropDuplicates (nonNull c)).enum

/-- The categories of the top-15 bar chart: `value_counts().head(15)`. -/
def top15 (c : List Cell) : List Value :=
  ((valueCounts c).take 15).map Prod.snd

/-! ### Spec-side definition for the refutation of the mode tie-break -/

/-- Following the claim's words: the first most-frequent value of the
column, ties broken by first-encountered order. -/
def modeFirstSeen (c : List Cell) : Option Value :=
  (dropDuplicates (nonNull c)).find?
    (fun v => (nonNull c).count v = maxCount (nonNull c))

/-! ### Order lemmas for the value order -/

theorem strLt_irrefl : ∀ (a : List Char), strLt a a = false
  | [] => rfl
  | x :: as => by
    simp only [strLt, Nat.lt_irrefl, if_false]
    exact strLt_irrefl as

theorem strLt_trans : ∀ (a b c : List Char),
    strLt a b = true → strLt b c = true → strLt a c = true
  | [], [], _, h1, _ => by simp [strLt] at h1
  | [], _ :: _, [], _, h2 => by simp [strLt] at h2
  | [], _ :: _, _ :: _, _, _ => rfl
  | _ :: _, [], _, h1, _ => by simp [strLt] at h1
  | _ :: _, _ :: _, [], _, h2 => by simp [strLt] at h2
  | x :: as, y :: bs, z :: cs, h1, h2 => by
    simp only [strLt] at h1 h2 ⊢
    by_cases hxy : x.toNat < y.toNat
    · by_cases hyz : y.toNat < z.toNat
      · have hxz : x.toNat < z.toNat := Nat.lt_trans hxy hyz
        simp [hxz]
      · by_cases hzy : z.toNat < y.toNat
        · simp [hyz, hzy] at h2
        · have hxz : x.toNat < z.toNat := by omega
          simp [hxz]
    · by_cases hyx : y.toNat < x.toNat
      · simp [hxy, hyx] at h1
      · simp only [if_neg hxy, if_neg hyx] at h1
        by_cases hyz : y.toNat < z.toNat
        · have hxz : x.toNat < z.toNat := by omega
          simp [hxz]
        · by_cases hzy : z.toNat < y.toNat
          · simp [hyz, hzy] at h2
          · simp only [if_neg hyz, if_neg hzy] at h2
            have hxz : ¬ x.toNat < z.toNat := by omega
            have hzx : ¬ z.toNat < x.toNat := by omega
            simp only [if_neg hxz, if_neg hzx]
            exact strLt_trans as bs cs h1 h2

theorem strLt_connex : ∀ (a b : List Char),
    strLt a b = false → strLt b a = false → a = b
  | [], [], _, _ => rfl
  | [], _ :: _, h1, _ => by simp [strLt] at h1
  | _ :: _, [], _, h2 => by simp [strLt] at h2
  | x :: as, y :: bs, h1, h2 => by
    simp only [strLt] at h1 h2
    by_cases hxy : x.toNat < y.toNat
    · simp [hxy] at h1
    · by_cases hyx : y.toNat < x.toNat
      · simp [hxy, hyx] at h2
      · simp only [if_neg hxy, if_neg hyx] at h1 h2
        have hx3 : x.toNat = y.toNat := by omega
        have hx : x = y := Char.ext (UInt32.ext hx3)
        rw [hx, strLt_connex as bs h1 h2]

theorem strNotLt_trans {a b c : List Char}
    (h1 : strLt b a = false) (h2 : strLt c b = false) : strLt c a = false := by
  cases hca : strLt c a with
  | false => rfl
  | true =>
    exfalso
    cases hbc : strLt b c with
    | true =>
      have h := strLt_trans b c a hbc hca
      rw [h1] at h
      cases h
    | false =>
      have hbc2 : b = c := strLt_connex b c hbc h2
      subst hbc2
      rw [hca] at h1
      cases h1

theorem strLt_total_not (a b : List Char) : strLt b a = false ∨ strLt a b = false := by
  cases h1 : strLt b a with
  | false => exact Or.inl rfl
  | true =>
    cases h2 : strLt a b with
    | false => exact Or.inr rfl
    | true =>
      have h := strLt_trans a b a h2 h1
      rw [strLt_irrefl] at h
      cases h

theorem valueLe_refl (a : Value) : valueLe a a = true := by
  cases a with
  | num q => simp [valueLe]
  | str s => simp [valueLe, strLt_irrefl]
  | date n => simp [valueLe]

theorem valueLe_total (a b : Value) : valueLe a b = true ∨ valueLe b a = true := by
  cases a <;> cases b <;>
    simp only [valueLe, Value.rank, decide_eq_true_eq, Bool.not_eq_true'] <;>
    first
      | exact le_total _ _
      | exact strLt_total_not _ _

theorem valueLe_trans (a b c : Value) (h1 : valueLe a b = true)
    (h2 : valueLe b c = true) : valueLe a c = true := by
  cases a <;> cases b <;> cases c <;>
    simp only [valueLe, Value.rank, decide_eq_true_eq, Bool.not_eq_true'] at h1 h2 ⊢ <;>
    first
      | rfl
      | omega
      | exact le_trans h1 h2
      | exact strNotLt_trans h1 h2

/-! ### foldl max / foldl min -/

section FoldMax

variable {β : Type} {γ : Type} [LinearOrder γ]

theorem init_le_foldl_max (f : β → γ) :
    ∀ (l : List β) (a : γ), a ≤ l.foldl (fun m v => max m (f v)) a
  | [], a => le_refl a
  | x :: l, a =>
    le_trans (le_max_left a (f x)) (init_le_foldl_max f l (max a (f x)))

theorem mem_le_foldl_max (f : β → γ) :
    ∀ (l : List β) (a : γ) (x : β), x ∈ l → f x ≤ l.foldl (fun m v => max m (f v)) a
  | y :: l, a, x, h => by
    rcases List.mem_cons.mp h with h | h
    · subst h
      exact le_trans (le_max_right a (f x)) (init_le_foldl_max f l (max a (f x)))
    · exact mem_le_foldl_max f l (max a (f y)) x h

theorem foldl_max_cases (f : β → γ) :
    ∀ (l : List β) (a : γ), l.foldl (fun m v => max m (f v)) a = a ∨
      ∃ x ∈ l, l.foldl (fun m v => max m (f v)) a = f x
  | [], _ => Or.inl rfl
  | x :: l, a => by
    rcases foldl_max_cases f l (max a (f x)) with h | ⟨y, hy, h⟩
    · rcases max_choice a (f x) with hm | hm <;> rw [List.foldl_cons, h, hm]
      · exact Or.inl rfl
      · exact Or.inr ⟨x, List.mem_cons_self x l, rfl⟩
    · exact Or.inr ⟨y, List.mem_cons_of_mem x hy, h⟩

theorem foldl_min_le_init (f : β → γ) :
    ∀ (l : List β) (a : γ), l.foldl (fun m v => min m (f v)) a ≤ a
  | [], a => le_refl a
  | x :: l, a =>
    le_trans (foldl_min_le_init f l (min a (f x))) (min_le_left a (f x))

theorem foldl_min_le_mem (f : β → γ) :
    ∀ (l : List β) (a : γ) (x : β), x ∈ l → l.foldl (fun m v => min m (f v)) a ≤ f x
  | y :: l, a, x, h => by
    rcases List.mem_cons.mp h with h | h
    · subst h
      exact le_trans (foldl_min_le_init f l (min a (f x))) (min_le_right a (f x))
    · exact foldl_min_le_mem f l (min a (f y)) x h

theorem foldl_min_cases (f : β → γ) :
    ∀ (l : List β) (a : γ), l.foldl (fun m v => min m (f v)) a = a ∨
      ∃ x ∈ l, l.foldl (fun m v => min m (f v)) a = f x
  | [], _ => Or.inl rfl
  | x :: l, a => by
    rcases foldl_min_cases f l (min a (f x)) with h | ⟨y, hy, h⟩
    · rcases min_choice a (f x) with hm | hm <;> rw [List.foldl_cons, h, hm]
      · exact Or.inl rfl
      · exact Or.inr ⟨x, List.mem_cons_self x l, rfl⟩
    · exact Or.inr ⟨y, List.mem_cons_of_mem x hy, h⟩

end FoldMax

/-! ### Characterisation of mode()[0] -/

theorem count_le_maxCount {vs : List Value} {w : Value} (h : w ∈ vs) :
    vs.count w ≤ maxCount vs :=
  mem_le_foldl_max (fun v => vs.count v) (dropDuplicates vs) 0 w
    (mem_dropDuplicates.mpr h)

theorem mem_modeCandidates {vs : List Value} {w : Value} :
    w ∈ modeCandidates vs ↔ w ∈ vs ∧ vs.count w = maxCount vs := by
  unfold modeCandidates
  rw [List.mem_filter, mem_dropDuplicates]
  simp

/-- What `mode()[0]` returns: a value of the column attaining the highest
multiplicity, least in the ascending value order among the tied ones. -/
theorem modeCol_spec {c : List Cell} {v : Value} (h : modeCol c = some v) :
    v ∈ nonNull c ∧
    (∀ w ∈ nonNull c, (nonNull c).count w ≤ (nonNull c).count v) ∧
    (∀ w ∈ nonNull c, (nonNull c).count w = (nonNull c).count v →
      valueLe v w = true) := by
  unfold modeCol at h
  haveI htot : IsTotal Value (fun a b => valueLe a b = true) := ⟨valueLe_total⟩
  haveI htrans : IsTrans Value (fun a b => valueLe a b = true) :=
    ⟨fun a b c => valueLe_trans a b c⟩
  have hperm : List.Perm (List.insertionSort (fun a b => valueLe a b = true)
      (modeCandidates (nonNull c))) (modeCandidates (nonNull c)) :=
    List.perm_insertionSort _ _
  have hsorted : List.Sorted (fun a b => valueLe a b = true)
      (List.insertionSort (fun a b => valueLe a b = true)
        (modeCandidates (nonNull c))) :=
    List.sorted_insertionSort _ _
  generalize hcase : List.insertionSort (fun a b => valueLe a b = true)
      (modeCandidates (nonNull c)) = s at h hperm hsorted
  cases s with
  | nil => cases h
  | cons v0 rest =>
    have hv0 : v0 = v := by simpa using h
    subst hv0
    have hvmem : v0 ∈ modeCandidates (nonNull c) :=
      hperm.mem_iff.mp (List.mem_cons_self _ _)
    obtain ⟨hvvs, hvcount⟩ := mem_modeCandidates.mp hvmem
    refine ⟨hvvs, ?_, ?_⟩
    · intro w hw
      rw [hvcount]
      exact count_le_maxCount hw
    · intro w hw hcw
      have hwc : w ∈ modeCandidates (nonNull c) :=
        mem_modeCandidates.mpr ⟨hw, by rw [hcw, hvcount]⟩
      have hws : w ∈ v0 :: rest := hperm.mem_iff.mpr hwc
      rcases List.mem_cons.mp hws with hwv | hwr
      · rw [hwv]
        exact valueLe_refl _
      · exact (List.sorted_cons.mp hsorted).1 w hwr

/-! ### Pointwise analysis of the invalid-row keep condition -/

/-- The keep condition fails exactly on rows whose bound price is < 0,
bound quantity is ≤ 0, or whose bound price/quantity cell is missing (or
not numeric): NaN comparisons are False, so NaN rows fail `>= 0` even
though they also fail `< 0`. -/
theorem cell_keep_iff (cp cq : Cell) :
    (cellGe0 cp && cellGt0 cq) = true ↔
      ¬((cellLt0 cp || cellLe0 cq) = true ∨
        Cell.asNum cp = none ∨ Cell.asNum cq = none) := by
  rcases cp with _ | v1
  · simp [cellGe0, cellLt0, Cell.asNum]
  · rcases cq with _ | v2
    · cases v1 <;> simp [cellGe0, cellGt0, cellLt0, Cell.asNum]
    · cases v1 <;> cases v2 <;>
        simp [cellGe0, cellGt0, cellLt0, cellLe0, Cell.asNum, not_or,
          not_lt, not_le]

/-! ### Claim theorems -/

/-- C5: deduplication gives a table with no two identical rows, is
idempotent, keeps exactly the set of row values, and — characterised row
by row — a row appended at the end survives exactly when it does not
duplicate an earlier row (with `dropDuplicates [] = []` this pins the
step down to removing precisely the duplicates of earlier rows). -/
theorem dedupe_removes_exactly_earlier_duplicates (t : Table) (r : Row) :
    t.dedupe.rows.Nodup ∧
    t.dedupe.dedupe = t.dedupe ∧
    (∀ s, s ∈ t.dedupe.rows ↔ s ∈ t.rows) ∧
    (Table.dedupe { t with rows := t.rows ++ [r] } =
      if r ∈ t.rows then t.dedupe
      else { t.dedupe with rows := t.dedupe.rows ++ [r] }) := by
  refine ⟨nodup_dropDuplicates _, ?_, fun s => mem_dropDuplicates, ?_⟩
  · unfold Table.dedupe
    simp [dropDuplicates_idem]
  · unfold Table.dedupe
    simp only
    rw [dropDuplicates_append_singleton]
    by_cases h : r ∈ t.rows
    · simp [h]
    · simp [h]

/-- C8: when parsing the upload fails, the render shows exactly one error
banner carrying the message and halts: no KPI block, no cleaning, and no
crash from a later stage — nothing downstream runs. -/
theorem parse_failure_one_banner_and_halt (e : String) (pol : MissingPolicy)
    (p q : Option ℕ) :
    runApp (.error e) pol p q =
      { errorBanners := ["Error reading file: " ++ e]
        kpis := none
        cleaned := none
        crashed := none } := rfl

/-- A table with no numeric column, so the price/qty selectboxes have no
options and both bindings are unset. -/
def tNoNumeric : Table :=
  { names := ["product"], dtypes := [.obj], rows := [[some (.str "x")]] }

/-- C2 counterexample: with the bindings unset the cleaning stage does
not skip the invalid-row filter and complete; the `df[None]` column
lookup fails, so the stage errors out. -/
theorem cleaning_unset_bindings_errors :
    cleaningStage .fillConstant none none tNoNumeric = .error keyErrorNone := rfl

/-- C2 amended: with the price or quantity binding unset, the invalid-row
filtering step is not skipped — its column lookup fails and the cleaning
stage never completes. -/
theorem cleaning_unset_bindings_never_completes (pol : MissingPolicy)
    (p q : Option ℕ) (t t' : Table) (h : p = none ∨ q = none) :
    cleaningStage pol p q t ≠ .ok t' := by
  intro hok
  unfold cleaningStage at hok
  cases hpol : applyPolicy pol t.dedupe with
  | error e =>
    rw [hpol] at hok
    cases hok
  | ok t2 =>
    rw [hpol] at hok
    rcases h with rfl | rfl
    · simp [applyInvalidFilter] at hok
    · cases p <;> simp [applyInvalidFilter] at hok

theorem cleaning_unset_bindings_never_completes_witness :
    cleaningStage .dropRows none none tNoNumeric ≠ .ok tNoNumeric :=
  cleaning_unset_bindings_never_completes .dropRows none none tNoNumeric
    tNoNumeric (Or.inl rfl)

/-- A table whose single row has a missing price and quantity 1. -/
def tNaNPrice : Table :=
  { names := ["price", "qty"]
    dtypes := [.num, .num]
    rows := [[none, some (.num 1)]] }

/-- C6 counterexample: the code's filter removes the NaN-price row (it
fails `price >= 0`), but that row is not "price < 0 or qty <= 0" — the
filter described by the claim keeps it. -/
theorem invalid_filter_removes_nan_row :
    (invalidFilter 0 1 tNaNPrice).rows = [] ∧
    claimInvalidFilter 0 1 tNaNPrice = tNaNPrice := by
  constructor
  · rfl
  · rfl

/-- C6 amended: the invalid-row filter removes exactly the rows whose
bound price is < 0, bound quantity is ≤ 0, or whose bound price or
quantity value is missing; and it is idempotent. -/
theorem invalid_filter_exact_and_idempotent (p q : ℕ) (t : Table) :
    invalidFilter p q (invalidFilter p q t) = invalidFilter p q t ∧
    (∀ r, r ∈ (invalidFilter p q t).rows ↔
      r ∈ t.rows ∧
        ¬(claimInvalidRow p q r = true ∨
          Cell.asNum ((r.get? p).join) = none ∨
          Cell.asNum ((r.get? q).join) = none)) := by
  constructor
  · unfold invalidFilter
    simp [List.filter_filter]
  · intro r
    unfold invalidFilter
    simp only [List.mem_filter]
    rw [show keepRow p q r = (cellGe0 ((r.get? p).join) && cellGt0 ((r.get? q).join))
      from rfl, cell_keep_iff]
    unfold claimInvalidRow
    tauto

/-! ### Structure of the mean/median/mode fill loop -/

theorem medianModeFill1_error {t : Table} {j : ℕ} {dt : Dtype} {e : String}
    (h : medianModeFill1 t j dt = .error e) : e = keyErrorZero := by
  unfold medianModeFill1 at h
  by_cases hdt : dt = .num
  · rw [if_pos hdt] at h
    cases h
  · rw [if_neg hdt] at h
    cases hm : modeCol (colCells t j) with
    | none =>
      rw [hm] at h
      cases h
      rfl
    | some v =>
      rw [hm] at h
      cases h

theorem collectFills_error_msg (t : Table) :
    ∀ (l : List (ℕ × Dtype)) (e : String),
      collectFills t l = .error e → e = keyErrorZero
  | [], e, h => by cases h
  | (j, dt) :: rest, e, h => by
    unfold collectFills at h
    cases hm : medianModeFill1 t j dt with
    | error e2 =>
      rw [hm] at h
      cases h
      exact medianModeFill1_error hm
    | ok f =>
      rw [hm] at h
      cases hrest : collectFills t rest with
      | error e2 =>
        rw [hrest] at h
        cases h
        exact collectFills_error_msg t rest _ hrest
      | ok fs =>
        rw [hrest] at h
        cases h

theorem collectFills_ok_get (t : Table) :
    ∀ (l : List (ℕ × Dtype)) (fs : List (Option Value)),
      collectFills t l = .ok fs →
      ∀ (k j : ℕ) (dt : Dtype), l.get? k = some (j, dt) →
        ∃ f, fs.get? k = some f ∧ medianModeFill1 t j dt = .ok f
  | [], fs, h, k, j, dt, hk => by cases hk
  | (j0, dt0) :: rest, fs, h, k, j, dt, hk => by
    unfold collectFills at h
    cases hm : medianModeFill1 t j0 dt0 with
    | error e =>
      rw [hm] at h
      cases h
    | ok f0 =>
      rw [hm] at h
      cases hrest : collectFills t rest with
      | error e =>
        rw [hrest] at h
        cases h
      | ok fs0 =>
        rw [hrest] at h
        cases h
        cases k with
        | zero =>
          cases hk
          exact ⟨f0, rfl, hm⟩
        | succ k =>
          exact collectFills_ok_get t rest fs0 hrest k j dt hk

/-! ### Cell-level view of the fills -/

theorem cell_of_get? {t : Table} {i : ℕ} {r : Row}
    (hr : t.rows.get? i = some r) (j : ℕ) : t.cell i j = (r.get? j).join := by
  unfold Table.cell
  rw [hr]
  rfl

theorem fillRow_get? {fs : List (Option Value)} {r : Row} {j : ℕ} {c : Cell}
    {f : Option Value} (hc : r.get? j = some c) (hf : fs.get? j = some f) :
    (fillRow fs r).get? j = some (cellOr c f) := by
  unfold fillRow
  rw [List.get?_zipWith', hc, hf]
  rfl

theorem filled_table_cell {t : Table} {fs : List (Option Value)} {i j : ℕ}
    {r : Row} {f : Option Value} (hr : t.rows.get? i = some r)
    (hj : j < r.length) (hf : fs.get? j = some f) :
    Table.cell { t with rows := t.rows.map (fillRow fs) } i j =
      cellOr (t.cell i j) f := by
  have hc : r.get? j = some (r.get ⟨j, hj⟩) := List.get?_eq_get hj
  have h1 : Table.cell { t with rows := t.rows.map (fillRow fs) } i j =
      cellOr (r.get ⟨j, hj⟩) f := by
    unfold Table.cell
    simp only [List.get?_map, hr, Option.map_some', Option.getD_some]
    rw [fillRow_get? hc hf]
    rfl
  have h2 : t.cell i j = r.get ⟨j, hj⟩ := by
    rw [cell_of_get? hr, hc]
    rfl
  rw [h1, h2]

/-! ### More claim theorems -/

/-- C10: under the mean/median/mode policy, a non-numeric column with no
non-missing value makes the imputation raise — `mode()` is empty and the
`[0]` lookup fails — so no cleaned table is produced. -/
theorem all_missing_nonnumeric_mode_raises (t : Table) (j : ℕ) (dt : Dtype)
    (hdt : t.dtypes.get? j = some dt) (hnum : dt ≠ .num)
    (hmiss : nonNull (colCells t j) = []) :
    medianModeFill t = .error keyErrorZero := by
  have h1 : medianModeFill1 t j dt = .error keyErrorZero := by
    unfold medianModeFill1
    rw [if_neg hnum]
    have hmode : modeCol (colCells t j) = none := by
      unfold modeCol modeCandidates
      rw [hmiss]
      rfl
    rw [hmode]
  unfold medianModeFill
  cases hcf : collectFills t t.dtypes.enum with
  | error e =>
    rw [collectFills_error_msg t _ e hcf]
  | ok fs =>
    exfalso
    have henum : t.dtypes.enum.get? j = some (j, dt) := by
      rw [List.get?_enum, hdt]
      rfl
    obtain ⟨f, _, hok⟩ := collectFills_ok_get t _ fs hcf j j dt henum
    rw [h1] at hok
    cases hok

/-- A table with a single all-missing non-numeric column. -/
def tAllMissingObj : Table :=
  { names := ["note"], dtypes := [.obj], rows := [[none]] }

theorem all_missing_nonnumeric_mode_raises_witness :
    medianModeFill tAllMissingObj = .error keyErrorZero :=
  all_missing_nonnumeric_mode_raises tAllMissingObj 0 .obj rfl
    (by decide) rfl

/-- C1 (amended): under the mean/median/mode policy, in every column a
value that was present is unchanged; a missing value in an int64/float64
column becomes the median of the column's non-missing values (and stays
missing when the whole column was missing, as `fillna(NaN)` does
nothing); a missing value in a non-numeric column becomes `mode()[0]`: a
most-frequent value of the column, least in ascending value order among
the tied most-frequent values — not the first-encountered one. -/
theorem median_mode_fill_spec (t t' : Table) (h : medianModeFill t = .ok t')
    (i j : ℕ) (dt : Dtype) (hdt : t.dtypes.get? j = some dt)
    (r : Row) (hr : t.rows.get? i = some r) (hj : j < r.length) :
    (∀ v, t.cell i j = some v → t'.cell i j = some v) ∧
    (dt = .num → t.cell i j = none →
      t'.cell i j = (median (numCells (colCells t j))).map Value.num) ∧
    (dt ≠ .num → t.cell i j = none →
      ∃ v, modeCol (colCells t j) = some v ∧
        t'.cell i j = effectiveFill dt v ∧
        v ∈ nonNull (colCells t j) ∧
        (∀ w ∈ nonNull (colCells t j),
          (nonNull (colCells t j)).count w ≤ (nonNull (colCells t j)).count v) ∧
        (∀ w ∈ nonNull (colCells t j),
          (nonNull (colCells t j)).count w = (nonNull (colCells t j)).count v →
            valueLe v w = true)) := by
  unfold medianModeFill at h
  cases hcf : collectFills t t.dtypes.enum with
  | error e =>
    rw [hcf] at h
    cases h
  | ok fs =>
    rw [hcf] at h
    cases h
    have henum : t.dtypes.enum.get? j = some (j, dt) := by
      rw [List.get?_enum, hdt]
      rfl
    obtain ⟨f, hfs, hf1⟩ := collectFills_ok_get t _ fs hcf j j dt henum
    have hcell := filled_table_cell hr hj hfs
    refine ⟨?_, ?_, ?_⟩
    · intro v hv
      rw [hcell, hv]
      rfl
    · intro hnum hmiss
      rw [hcell, hmiss]
      unfold medianModeFill1 at hf1
      rw [if_pos hnum] at hf1
      cases hf1
      rfl
    · intro hnum hmiss
      unfold medianModeFill1 at hf1
      rw [if_neg hnum] at hf1
      cases hm : modeCol (colCells t j) with
      | none =>
        rw [hm] at hf1
        cases hf1
      | some v =>
        rw [hm] at hf1
        cases hf1
        obtain ⟨hmem, hmax, hleast⟩ := modeCol_spec hm
        refine ⟨v, rfl, ?_, hmem, hmax, hleast⟩
        rw [hcell, hmiss]
        rfl

/-- A table whose categorical column ties between "b" (first seen) and
"a": id column to keep rows distinct, category column
[b, a, b, a, NaN]. -/
def tTieMode : Table :=
  { names := ["id", "cat"]
    dtypes := [.num, .obj]
    rows := [[some (.num 1), some (.str "b")],
             [some (.num 2), some (.str "a")],
             [some (.num 3), some (.str "b")],
             [some (.num 4), some (.str "a")],
             [some (.num 5), none]] }

/-- `tTieMode` after the mean/median/mode fill: the missing category
becomes "a". -/
def tTieModeFilled : Table :=
  { names := ["id", "cat"]
    dtypes := [.num, .obj]
    rows := [[some (.num 1), some (.str "b")],
             [some (.num 2), some (.str "a")],
             [some (.num 3), some (.str "b")],
             [some (.num 4), some (.str "a")],
             [some (.num 5), some (.str "a")]] }

/-- C1 counterexample: on the tied category column [b, a, b, a, NaN] the
code fills the missing value with "a" (`mode()` sorts ascending, so
`mode()[0]` is the least tied value), while the claim's tie-break — first
most-frequent value in first-encountered order — is "b". -/
theorem median_mode_tie_break_counterexample :
    medianModeFill tTieMode = .ok tTieModeFilled ∧
    tTieModeFilled.cell 4 1 = some (.str "a") ∧
    modeFirstSeen (colCells tTieMode 1) = some (.str "b") ∧
    Value.str "a" ≠ Value.str "b" := by
  refine ⟨by rfl, rfl, by rfl, by decide⟩

theorem median_mode_fill_spec_witness :
    ∃ v, modeCol (colCells tTieMode 1) = some v ∧
      tTieModeFilled.cell 4 1 = effectiveFill .obj v ∧
      v ∈ nonNull (colCells tTieMode 1) ∧
      (∀ w ∈ nonNull (colCells tTieMode 1),
        (nonNull (colCells tTieMode 1)).count w ≤
          (nonNull (colCells tTieMode 1)).count v) ∧
      (∀ w ∈ nonNull (colCells tTieMode 1),
        (nonNull (colCells tTieMode 1)).count w =
          (nonNull (colCells tTieMode 1)).count v → valueLe v w = true) :=
  (median_mode_fill_spec tTieMode tTieModeFilled (by rfl) 4 1 .obj rfl
    [some (.num 5), none] rfl (by decide)).2.2 (by decide) rfl

/-- C3 (amended): the constant fill leaves every present value unchanged,
fills missing values of int64/float64 columns with 0 and missing values
of object columns with "Unknown"; datetime columns are left untouched
(the in-place string fill cannot be written back into a datetime64
block), so their missing values survive. -/
theorem constant_fill_spec (t : Table) (i j : ℕ) (dt : Dtype)
    (hdt : t.dtypes.get? j = some dt) (r : Row) (hr : t.rows.get? i = some r)
    (hj : j < r.length) :
    (∀ v, t.cell i j = some v → (constantFill t).cell i j = some v) ∧
    (dt = .num → t.cell i j = none →
      (constantFill t).cell i j = some (.num 0)) ∧
    (dt = .obj → t.cell i j = none →
      (constantFill t).cell i j = some (.str "Unknown")) ∧
    (dt = .datetime → (constantFill t).cell i j = t.cell i j) := by
  have hfs : (t.dtypes.map (fun d => effectiveFill d (constFillValue d))).get? j =
      some (effectiveFill dt (constFillValue dt)) := by
    rw [List.get?_map, hdt]
    rfl
  have hcell := filled_table_cell hr hj hfs
  have hcell2 : (constantFill t).cell i j =
      cellOr (t.cell i j) (effectiveFill dt (constFillValue dt)) := hcell
  refine ⟨?_, ?_, ?_, ?_⟩
  · intro v hv
    rw [hcell2, hv]
    rfl
  · intro hd hmiss
    subst hd
    rw [hcell2, hmiss]
    rfl
  · intro hd hmiss
    subst hd
    rw [hcell2, hmiss]
    rfl
  · intro hd
    subst hd
    rw [hcell2]
    cases t.cell i j <;> rfl

/-- A table with a single datetime column containing an unparseable date
(NaT after coercion). -/
def tNaTDate : Table :=
  { names := ["order_date"], dtypes := [.datetime], rows := [[none]] }

/-- C3 counterexample: the constant fill does not touch a datetime64
column — `fillna("Unknown", inplace=True)` upcasts a temporary instead of
writing through — so the NaT cell is still missing afterwards, against
the claim that no column of the result contains a missing value. -/
theorem constant_fill_leaves_nat_missing :
    constantFill tNaTDate = tNaTDate ∧
    (constantFill tNaTDate).cell 0 0 = none := ⟨rfl, rfl⟩

/-- A table with a numeric, an object and a datetime column, all missing
in the single row. -/
def tMixedMissing : Table :=
  { names := ["price", "note", "order_date"]
    dtypes := [.num, .obj, .datetime]
    rows := [[none, none, none]] }

theorem constant_fill_spec_witness :
    (constantFill tMixedMissing).cell 0 0 = some (.num 0) ∧
    (constantFill tMixedMissing).cell 0 1 = some (.str "Unknown") := by
  constructor
  · exact (constant_fill_spec tMixedMissing 0 0 .num rfl [none, none, none]
      rfl (by decide)).2.1 rfl rfl
  · exact (constant_fill_spec tMixedMissing 0 1 .obj rfl [none, none, none]
      rfl (by decide)).2.2.1 rfl rfl

/-! ### OHLC lemmas -/

theorem aggGroup_day (k : ℕ) (g : List ℚ) : (aggGroup k g).day = k := by
  cases g <;> rfl

theorem init_le_foldl_max_plain (l : List ℚ) (a : ℚ) : a ≤ l.foldl max a :=
  init_le_foldl_max id l a

theorem mem_le_foldl_max_plain (l : List ℚ) (a x : ℚ) (h : x ∈ l) :
    x ≤ l.foldl max a :=
  mem_le_foldl_max id l a x h

theorem foldl_max_plain_cases (l : List ℚ) (a : ℚ) :
    l.foldl max a = a ∨ ∃ x ∈ l, l.foldl max a = x :=
  foldl_max_cases id l a

theorem foldl_min_plain_le_init (l : List ℚ) (a : ℚ) : l.foldl min a ≤ a :=
  foldl_min_le_init id l a

theorem foldl_min_plain_le_mem (l : List ℚ) (a x : ℚ) (h : x ∈ l) :
    l.foldl min a ≤ x :=
  foldl_min_le_mem id l a x h

theorem foldl_min_plain_cases (l : List ℚ) (a : ℚ) :
    l.foldl min a = a ∨ ∃ x ∈ l, l.foldl min a = x :=
  foldl_min_cases id l a

theorem cons_getLast? (x : ℚ) (l : List ℚ) :
    (x :: l).getLast? = some (l.getLastD x) := by
  induction l generalizing x with
  | nil => rfl
  | cons y l ih => rw [List.getLast?_cons_cons, ih, List.getLastD_cons]

theorem mem_dayKeys {rows : List (Option ℕ × Option ℚ)} {k : ℕ} :
    k ∈ dayKeys rows ↔ ∃ x ∈ rows, x.1 = some k := by
  unfold dayKeys
  rw [(List.perm_insertionSort _ _).mem_iff, mem_dropDuplicates,
    List.mem_filterMap]

theorem dayKeys_sorted (rows : List (Option ℕ × Option ℚ)) :
    List.Sorted (· < ·) (dayKeys rows) := by
  unfold dayKeys
  have hle : List.Sorted (fun a b : ℕ => a ≤ b)
      (List.insertionSort (fun a b : ℕ => a ≤ b)
        (dropDuplicates (rows.filterMap Prod.fst))) :=
    List.sorted_insertionSort _ _
  have hnd : (List.insertionSort (fun a b : ℕ => a ≤ b)
      (dropDuplicates (rows.filterMap Prod.fst))).Nodup :=
    (List.perm_insertionSort _ _).nodup_iff.mpr
      (nodup_dropDuplicates _)
  exact List.Sorted.lt_of_le hle hnd

/-- A one-day demo table: prices [10, 15, 8, 12] on the same date. -/
def tOhlcDemo : Table :=
  { names := ["order_date", "price"]
    dtypes := [.datetime, .num]
    rows := [[some (.date 0), some (.num 10)],
             [some (.date 0), some (.num 15)],
             [some (.date 0), some (.num 8)],
             [some (.date 0), some (.num 12)]] }

/-- C4: the daily OHLC aggregation groups rows by the calendar-date
component of the bound date column (one output row per distinct date,
ordered strictly ascending); within each date group, in original row
order, open is the first price, close the last, high the maximum and low
the minimum.  In particular the one-day demo table with prices
[10, 15, 8, 12] yields open 10, high 15, low 8, close 12. -/
theorem ohlc_spec (t : Table) (dj pj : ℕ) :
    List.Sorted (· < ·) ((ohlcOfTable t dj pj).map OhlcEntry.day) ∧
    (∀ k, (∃ x ∈ ohlcRows t dj pj, x.1 = some k) ↔
      ∃ e ∈ ohlcOfTable t dj pj, e.day = k) ∧
    (∀ e ∈ ohlcOfTable t dj pj,
      e.openPrice = (groupPrices (ohlcRows t dj pj) e.day).head? ∧
      e.closePrice = (groupPrices (ohlcRows t dj pj) e.day).getLast? ∧
      (∀ h, e.highPrice = some h →
        h ∈ groupPrices (ohlcRows t dj pj) e.day ∧
        ∀ x ∈ groupPrices (ohlcRows t dj pj) e.day, x ≤ h) ∧
      (∀ m, e.lowPrice = some m →
        m ∈ groupPrices (ohlcRows t dj pj) e.day ∧
        ∀ x ∈ groupPrices (ohlcRows t dj pj) e.day, m ≤ x)) ∧
    ohlcOfTable tOhlcDemo 0 1 =
      [{ day := 0, openPrice := some 10, highPrice := some 15,
         lowPrice := some 8, closePrice := some 12 }] := by
  refine ⟨?_, ?_, ?_, by rfl⟩
  · have : (ohlcOfTable t dj pj).map OhlcEntry.day = dayKeys (ohlcRows t dj pj) := by
      unfold ohlcOfTable ohlc
      rw [List.map_map]
      have : (OhlcEntry.day ∘ fun k =>
          aggGroup k (groupPrices (ohlcRows t dj pj) k)) = id := by
        funext k
        exact aggGroup_day k _
      rw [this, List.map_id]
    rw [this]
    exact dayKeys_sorted _
  · intro k
    rw [mem_dayKeys.symm]
    constructor
    · intro hk
      refine ⟨aggGroup k (groupPrices (ohlcRows t dj pj) k), ?_, aggGroup_day _ _⟩
      unfold ohlcOfTable ohlc
      exact List.mem_map_of_mem _ hk
    · rintro ⟨e, he, rfl⟩
      unfold ohlcOfTable ohlc at he
      obtain ⟨k0, hk0, rfl⟩ := List.mem_map.mp he
      rw [aggGroup_day]
      exact hk0
  · intro e he
    unfold ohlcOfTable ohlc at he
    obtain ⟨k0, _, rfl⟩ := List.mem_map.mp he
    rw [aggGroup_day]
    cases hg : groupPrices (ohlcRows t dj pj) k0 with
    | nil =>
      refine ⟨rfl, rfl, ?_, ?_⟩ <;>
        · intro x hx
          exact Option.noConfusion hx
    | cons p ps =>
      refine ⟨rfl, (cons_getLast? p ps).symm, ?_, ?_⟩
      · intro h hh
        cases hh
        constructor
        · rcases foldl_max_plain_cases ps p with hc | ⟨x, hx, hc⟩
          · rw [hc]
            exact List.mem_cons_self _ _
          · rw [hc]
            exact List.mem_cons_of_mem _ hx
        · intro x hx
          rcases List.mem_cons.mp hx with rfl | hx
          · exact init_le_foldl_max_plain ps x
          · exact mem_le_foldl_max_plain ps p x hx
      · intro m hm
        cases hm
        constructor
        · rcases foldl_min_plain_cases ps p with hc | ⟨x, hx, hc⟩
          · rw [hc]
            exact List.mem_cons_self _ _
          · rw [hc]
            exact List.mem_cons_of_mem _ hx
        · intro x hx
          rcases List.mem_cons.mp hx with rfl | hx
          · exact foldl_min_plain_le_init ps x
          · exact foldl_min_plain_le_mem ps p x hx

theorem ohlc_spec_witness :
    ({ day := 0, openPrice := some 10, highPrice := some 15,
       lowPrice := some 8, closePrice := some 12 } : OhlcEntry).openPrice =
      (groupPrices (ohlcRows tOhlcDemo 0 1) 0).head? :=
  ((ohlc_spec tOhlcDemo 0 1).2.2.1
    { day := 0, openPrice := some 10, highPrice := some 15,
      lowPrice := some 8, closePrice := some 12 } (by decide)).1

/-! ### value_counts lemmas -/

theorem vcLe_total2 (vs : List Value) (a b : ℕ × Value) :
    vcLe vs a b ∨ vcLe vs b a := by
  unfold vcLe
  omega

theorem vcLe_trans2 (vs : List Value) (a b c : ℕ × Value)
    (h1 : vcLe vs a b) (h2 : vcLe vs b c) : vcLe vs a c := by
  unfold vcLe at h1 h2 ⊢
  omega

theorem valueCounts_sorted (c : List Cell) :
    List.Pairwise (vcLe (nonNull c)) (valueCounts c) := by
  haveI : IsTotal (ℕ × Value) (vcLe (nonNull c)) := ⟨vcLe_total2 _⟩
  haveI : IsTrans (ℕ × Value) (vcLe (nonNull c)) := ⟨vcLe_trans2 _⟩
  exact List.sorted_insertionSort _ _

theorem valueCounts_perm (c : List Cell) :
    List.Perm (valueCounts c) (dropDuplicates (nonNull c)).enum :=
  List.perm_insertionSort _ _

theorem valueCounts_entry {c : List Cell} {x : ℕ × Value}
    (hx : x ∈ valueCounts c) :
    (dropDuplicates (nonNull c)).indexOf x.2 = x.1 ∧
      x.2 ∈ dropDuplicates (nonNull c) := by
  have hx2 : x ∈ (dropDuplicates (nonNull c)).enum :=
    (valueCounts_perm c).mem_iff.mp hx
  have hget : (dropDuplicates (nonNull c)).get? x.1 = some x.2 :=
    List.mem_enum_iff_get?.mp hx2
  obtain ⟨hlt, hgetv⟩ := List.get?_eq_some.mp hget
  constructor
  · rw [← hgetv]
    have := List.indexOf_getElem (nodup_dropDuplicates (nonNull c)) x.1 hlt
    simpa [List.get_eq_getElem] using this
  · rw [← hgetv]
    exact List.get_mem _ _ _

/-- C7: the top-15 category chart draws `value_counts().head(15)`: at
most 15 bars, all distinct values of the column, ordered by descending
frequency, ties in first-seen order (`dropDuplicates (nonNull c)` lists
the distinct values in first-encountered order, so a smaller index there
means seen earlier in the column). -/
theorem top15_spec (c : List Cell) :
    (top15 c).length ≤ 15 ∧
    (top15 c).Nodup ∧
    (∀ v ∈ top15 c, v ∈ nonNull c) ∧
    (top15 c).Pairwise (fun a b =>
      (nonNull c).count b < (nonNull c).count a ∨
      ((nonNull c).count a = (nonNull c).count b ∧
        (dropDuplicates (nonNull c)).indexOf a <
          (dropDuplicates (nonNull c)).indexOf b)) := by
  have hperm2 : List.Perm ((valueCounts c).map Prod.snd)
      (dropDuplicates (nonNull c)) := by
    have h := (valueCounts_perm c).map Prod.snd
    rwa [List.enum_map_snd] at h
  have hnd : ((valueCounts c).map Prod.snd).Nodup :=
    hperm2.nodup_iff.mpr (nodup_dropDuplicates _)
  have htop : top15 c = ((valueCounts c).map Prod.snd).take 15 := by
    unfold top15
    rw [List.map_take]
  refine ⟨?_, ?_, ?_, ?_⟩
  · rw [htop]
    exact List.length_take_le _ _
  · rw [htop]
    exact hnd.sublist (List.take_sublist _ _)
  · intro v hv
    rw [htop] at hv
    have hv2 := List.take_subset _ _ hv
    obtain ⟨x, hx, rfl⟩ := List.mem_map.mp hv2
    exact mem_dropDuplicates.mp (valueCounts_entry hx).2
  · have hpw : (valueCounts c).Pairwise (fun x y =>
        (nonNull c).count y.2 < (nonNull c).count x.2 ∨
        ((nonNull c).count x.2 = (nonNull c).count y.2 ∧
          (dropDuplicates (nonNull c)).indexOf x.2 <
            (dropDuplicates (nonNull c)).indexOf y.2) ∨ x.2 = y.2) := by
      refine List.Pairwise.imp_of_mem ?_ (valueCounts_sorted c)
      intro x y hx hy hle
      obtain ⟨hix, hmx⟩ := valueCounts_entry hx
      obtain ⟨hiy, hmy⟩ := valueCounts_entry hy
      rcases hle with h | ⟨heq, hle2⟩
      · exact Or.inl h
      · rcases Nat.lt_or_ge x.1 y.1 with hlt | hge
        · exact Or.inr (Or.inl ⟨heq, by rw [hix, hiy]; exact hlt⟩)
        · have hxy : x.1 = y.1 := Nat.le_antisymm hle2 hge
          refine Or.inr (Or.inr ?_)
          exact (List.indexOf_inj hmx hmy).mp (by rw [hix, hiy, hxy])
    have hmap : ((valueCounts c).map Prod.snd).Pairwise (fun a b =>
        (nonNull c).count b < (nonNull c).count a ∨
        ((nonNull c).count a = (nonNull c).count b ∧
          (dropDuplicates (nonNull c)).indexOf a <
            (dropDuplicates (nonNull c)).indexOf b) ∨ a = b) :=
      (List.pairwise_map).mpr hpw
    have hcomb := hmap.and hnd
    have hstrict : ((valueCounts c).map Prod.snd).Pairwise (fun a b =>
        (nonNull c).count b < (nonNull c).count a ∨
        ((nonNull c).count a = (nonNull c).count b ∧
          (dropDuplicates (nonNull c)).indexOf a <
            (dropDuplicates (nonNull c)).indexOf b)) := by
      refine hcomb.imp ?_
      intro a b hab
      rcases hab with ⟨h | h | h, hne⟩
      · exact Or.inl h
      · exact Or.inr h
      · exact absurd h hne
    rw [htop]
    exact hstrict.sublist (List.take_sublist _ _)

theorem top15_spec_witness :
    (top15 [some (Value.str "x"), some (Value.str "y"),
      some (Value.str "x")]).length ≤ 15 :=
  (top15_spec [some (Value.str "x"), some (Value.str "y"),
    some (Value.str "x")]).1

/-! ### KPI claim -/

/-- A raw table with a duplicate pair, a missing price, and a negative
price: 4 rows before cleaning, 1 row after. -/
def tKpiDemo : Table :=
  { names := ["price", "qty", "customer_id"]
    dtypes := [.num, .num, .num]
    rows := [[some (.num 10), some (.num 2), some (.num 1)],
             [some (.num 10), some (.num 2), some (.num 1)],
             [none, some (.num 1), some (.num 2)],
             [some (.num (-5)), some (.num 1), some (.num 3)]] }

/-- C9: the KPI metric cards are computed on the raw parsed table, before
any cleaning step runs: total orders is the raw row count, revenue sums
price x qty over every raw row (a NaN product is skipped by the sum), and
unique customers counts distinct non-missing customer_id values.  On the
demo table the KPIs therefore include the duplicate row, the
missing-price row and the negative-price row (4 orders, revenue 35 = 20 +
20 - 5, 3 customers), while cleaning leaves only a single row. -/
theorem kpis_on_raw_table (df : Table) (pol : MissingPolicy) (pi qi : ℕ) :
    (runApp (.ok df) pol (some pi) (some qi)).kpis = some (kpiOf df pi qi) ∧
    (kpiOf df pi qi).totalOrders = df.rows.length ∧
    kpiOf tKpiDemo 0 1 =
      { totalOrders := 4, totalRevenue := 35, uniqueCustomers := some 3 } ∧
    cleaningStage .dropRows (some 0) (some 1) tKpiDemo =
      .ok { tKpiDemo with
        rows := [[some (.num 10), some (.num 2), some (.num 1)]] } := by
  refine ⟨rfl, rfl, ?_, by rfl⟩
  have h1 : revenue 0 1 tKpiDemo = 35 := by
    unfold revenue tKpiDemo
    simp [Cell.asNum]
    norm_num
  unfold kpiOf
  rw [h1]
  rfl

theorem kpis_on_raw_table_witness :
    (kpiOf tKpiDemo 0 1).totalOrders = tKpiDemo.rows.length :=
  (kpis_on_raw_table tKpiDemo .dropRows 0 1).2.1

theorem dedupe_witness :
    (Table.dedupe tKpiDemo).rows.Nodup :=
  (dedupe_removes_exactly_earlier_duplicates tKpiDemo []).1

theorem invalid_filter_witness :
    invalidFilter 0 1 (invalidFilter 0 1 tNaNPrice) = invalidFilter 0 1 tNaNPrice :=
  (invalid_filter_exact_and_idempotent 0 1 tNaNPrice).1

theorem parse_failure_witness :
    runApp (.error "parse error") .dropRows none none =
      { errorBanners := ["Error reading file: " ++ "parse error"]
        kpis := none
        cleaned := none
        crashed := none } :=
  parse_failure_one_banner_and_halt "parse error" .dropRows none none

end EDA
